import Mathlib

/-!
Verification development for the serpy schema compiler and execution engine
(serpy/serializer.py).

The embedding is shallow: Python objects and mappings become association
lists of string-keyed values, exceptions become an explicit error type
carried in Except, and the compiled read/write field tuples become Lean
structures holding the resolved accessor and converter functions.
-/

set_option autoImplicit false

namespace Serpy

/-- Python runtime values as far as the serializer observes them: the `None`
marker, primitive ints / strings / bools, attribute-bearing objects, and
zero-argument callables (a thunk returning its payload when called). -/
inductive Value where
  | pyNone
  | int (n : Int)
  | str (s : String)
  | bool (b : Bool)
  | obj (attrs : List (String × Value))
  | thunk (v : Value)

/-- Python `value is None`: the explicit no-value marker test used by
`_serialize` and `_deserialize`. -/
def Value.isNone : Value → Bool
  | Value.pyNone => true
  | _ => false

/-- A Python object viewed as its attribute dictionary (insertion ordered). -/
abbrev Obj := List (String × Value)

/-- A Python dict keyed by field names (insertion ordered). -/
abbrev Dict := List (String × Value)

/-- Errors the engine can raise, mirroring the Python exceptions. -/
inductive PyError where
  | attributeError (name : String)
  | keyError (name : String)
  | typeError (msg : String)

/-- First value bound to a key, if any (Python dict / attribute lookup). -/
def dictGet {α : Type} : List (String × α) → String → Option α
  | [], _ => Option.none
  | (k1, v) :: rest, k => if k1 = k then some v else dictGet rest k

/-- Whether a key is bound. -/
def hasKey {α : Type} : List (String × α) → String → Bool
  | [], _ => false
  | (k1, _) :: rest, k => k1 = k || hasKey rest k

/-- Rebind an existing key in place (keeping its position). -/
def setKey {α : Type} : List (String × α) → String → α → List (String × α)
  | [], _, _ => []
  | (k1, v1) :: rest, k, v =>
    if k1 = k then (k1, v) :: setKey rest k v else (k1, v1) :: setKey rest k v

/-- Python `d[k] = v`: replace in place when the key exists, else append,
preserving insertion order. -/
def dictInsert {α : Type} (d : List (String × α)) (k : String) (v : α) :
    List (String × α) :=
  if hasKey d k then setKey d k v else d ++ [(k, v)]

/-- Python `d.update(e)`: insert every binding of `e`, in order, into `d`. -/
def dictUpdate {α : Type} (d e : List (String × α)) : List (String × α) :=
  e.foldl (fun acc p => dictInsert acc p.1 p.2) d

/-- The keys of an association list, in order. -/
def keys {α : Type} (d : List (String × α)) : List String :=
  d.map Prod.fst

/-- Python `getattr` on a value: only `obj` values carry attributes. -/
def getattrV : Value → String → Except PyError Value
  | Value.obj o, n =>
    match dictGet o n with
    | some v => Except.ok v
    | Option.none => Except.error (PyError.attributeError n)
  | _, n => Except.error (PyError.attributeError n)

/-- Helper for splitting an attribute path on dots: accumulate the current
segment (reversed) while walking the characters. -/
def splitSegsAux : List Char → List Char → List String
  | [], cur => [String.mk cur.reverse]
  | c :: rest, cur =>
    if c = '.' then String.mk cur.reverse :: splitSegsAux rest []
    else splitSegsAux rest (c :: cur)

/-- Python path splitting on the dot character, as `operator.attrgetter`
performs it: always at least one segment, empty segments preserved. -/
def splitDots (s : String) : List String :=
  splitSegsAux s.data []

/-- `operator.attrgetter(path)` applied to an object: split the path on dots
and navigate one attribute segment at a time. -/
def attrgetter (path : String) (o : Obj) : Except PyError Value :=
  (splitDots path).foldlM getattrV (Value.obj o)

/-- The module-level `attrsetter(attr_name)` of serializer.py:
`setattr(obj, attr_name, val)` binds the single attribute literally named
`attr_name` (even when the string contains dots). -/
def attrsetter (attr_name : String) (o : Obj) (val : Value) : Obj :=
  dictInsert o attr_name val

/-- Python `data[k]`: raises KeyError when the key is missing. -/
def dictGetItem (d : Dict) (k : String) : Except PyError Value :=
  match dictGet d k with
  | some v => Except.ok v
  | Option.none => Except.error (PyError.keyError k)

/-- Python `result()` on the raw value of an invocable field: a thunk yields
its payload, anything else raises TypeError. -/
def callValue : Value → Except PyError Value
  | Value.thunk v => Except.ok v
  | _ => Except.error (PyError.typeError "object is not callable")

/-- Modelled from the spec: the Field descriptor of serpy/fields.py, which is
not under src/. Per spec sections 3 and 4.1 a field declares an optional
alias path (`attr`), the `call` / `required` / `read_only` flags with
defaults `required=true`, `read_only=false`, `call=false`, optional custom
conversion hooks whose presence means the identity default was overridden
(spec section 4.3 step 4), and optional owner-bound accessors (the method
field pattern) already bound to the schema instance, with the
`getter_takes_serializer` / `setter_takes_serializer` flags the compiled
tuples carry. -/
structure Field where
  attr : Option String := Option.none
  call : Bool := false
  required : Bool := true
  read_only : Bool := false
  to_representation : Option (Value → Except PyError Value) := Option.none
  to_internal_value : Option (Value → Except PyError Value) := Option.none
  as_getter : Option (Obj → Except PyError Value) := Option.none
  as_setter : Option (Obj → Value → Obj) := Option.none
  getter_takes_serializer : Bool := false
  setter_takes_serializer : Bool := false

/-- Python `field.attr or name`: the alias path when declared and non-empty,
else the field name. -/
def attr_or_name (f : Field) (name : String) : String :=
  match f.attr with
  | some a => if a = "" then name else a
  | Option.none => name

/-- A compiled read entry: the tuple
`(name, getter, to_representation, call, required, getter_takes_serializer)`
produced by `_compile_read_field_to_tuple`. -/
structure ReadField where
  name : String
  getter : Obj → Except PyError Value
  to_repr : Option (Value → Except PyError Value)
  call : Bool
  required : Bool
  pass_self : Bool

/-- A compiled write entry: the tuple
`(name, setter, to_internal_value, call, required, setter_takes_serializer)`
produced by `_compile_write_field_to_tuple`. -/
structure WriteField where
  name : String
  setter : Obj → Value → Obj
  to_internal : Option (Value → Except PyError Value)
  call : Bool
  required : Bool
  pass_self : Bool

/-- `_compile_read_field_to_tuple`: owner-bound getter when the field has
one, else the serializer class default getter resolved on
`field.attr or name`; the converter slot holds the hook only when it was
overridden. -/
def _compile_read_field_to_tuple (field : Field) (name : String)
    (default_getter : String → Obj → Except PyError Value) : ReadField :=
  { name := name
    getter :=
      match field.as_getter with
      | some g => g
      | Option.none => default_getter (attr_or_name field name)
    to_repr := field.to_representation
    call := field.call
    required := field.required
    pass_self := field.getter_takes_serializer }

/-- `_compile_write_field_to_tuple`: owner-bound setter when the field has
one, else the serializer class default setter resolved on
`field.attr or name`. -/
def _compile_write_field_to_tuple (field : Field) (name : String)
    (default_setter : String → Obj → Value → Obj) : WriteField :=
  { name := name
    setter :=
      match field.as_setter with
      | some s => s
      | Option.none => default_setter (attr_or_name field name)
    to_internal := field.to_internal_value
    call := field.call
    required := field.required
    pass_self := field.setter_takes_serializer }

/-- The compiled schema metadata attached to a serializer class: the merged
field map, the two compiled pipelines, and the resolved target constructor
(`Meta.cls`; `Option.none` models Python `cls = None`, the default). The
constructor is modelled by the fresh object it returns. -/
structure Meta where
  field_map : List (String × Field) := []
  compiled_read_fields : List ReadField := []
  compiled_write_fields : List WriteField := []
  cls : Option Obj := Option.none

/-- A serializer class definition as `SerializerMeta.__new__` sees it:
the compiled metas of the direct bases that are Serializer subclasses (in
declaration order), the fields declared directly on the class, the `cls`
declared on an inner `Meta` (outer `Option.none` = not declared), and the
default accessors the enclosing class resolves for its fields
(`operator.attrgetter` / `attrsetter` for plain serializers). -/
structure SerializerClassDef where
  base_metas : List Meta := []
  direct_fields : List (String × Field) := []
  meta_cls : Option (Option Obj) := Option.none
  default_getter : String → Obj → Except PyError Value := attrgetter
  default_setter : String → Obj → Value → Obj := attrsetter

/-- Attribute lookup of `cls` on the dynamically created inner Meta type
the dynamically created inner Meta type built from meta_bases: the directly
declared inner Meta comes first in the bases, then the Meta types of the
base classes in base order. -/
def resolveCls (d : SerializerClassDef) : Option Obj :=
  match d.meta_cls with
  | some c => c
  | Option.none => d.base_metas.findSome? (fun m => m.cls)

/-- `SerializerMeta._compile_meta`: walk the direct bases in reverse,
updating the field map with the already-merged map of each base (so earlier bases
override later ones), then update with the direct fields (so they override
everything); compile one read entry per field and one write entry per
non-read-only field, in field-map order. -/
def _compile_meta (d : SerializerClassDef) : Meta :=
  let field_map :=
    dictUpdate
      (d.base_metas.reverse.foldl (fun m b => dictUpdate m b.field_map) [])
      d.direct_fields
  { field_map := field_map
    compiled_read_fields :=
      field_map.map (fun p => _compile_read_field_to_tuple p.2 p.1 d.default_getter)
    compiled_write_fields :=
      (field_map.filter (fun p => !p.2.read_only)).map
        (fun p => _compile_write_field_to_tuple p.2 p.1 d.default_setter)
    cls := resolveCls d }

/-- One iteration of the `_serialize` loop: owner-bound getters store their
result directly; otherwise fetch the raw value, and when the field is
required or the value is not the marker, call it if invocable and convert it
if a converter is present; finally bind the result under the field name. -/
def runReadField (obj : Obj) (acc : Dict) (f : ReadField) : Except PyError Dict :=
  if f.pass_self then
    match f.getter obj with
    | Except.error e => Except.error e
    | Except.ok result => Except.ok (dictInsert acc f.name result)
  else
    match f.getter obj with
    | Except.error e => Except.error e
    | Except.ok result =>
      if f.required || !result.isNone then
        match (if f.call then callValue result else Except.ok result) with
        | Except.error e => Except.error e
        | Except.ok result2 =>
          match f.to_repr with
          | some conv =>
            match conv result2 with
            | Except.error e => Except.error e
            | Except.ok result3 => Except.ok (dictInsert acc f.name result3)
          | Option.none => Except.ok (dictInsert acc f.name result2)
      else
        Except.ok (dictInsert acc f.name result)

/-- The `_serialize` loop over the compiled read entries, threading the
result dict; the first raised error aborts the call. -/
def serializeFields (obj : Obj) : Dict → List ReadField → Except PyError Dict
  | acc, [] => Except.ok acc
  | acc, f :: rest =>
    match runReadField obj acc f with
    | Except.error e => Except.error e
    | Except.ok acc2 => serializeFields obj acc2 rest

/-- `Serializer._serialize(obj, fields)`: run the read pipeline over an
empty result dict. -/
def _serialize (meta : Meta) (obj : Obj) : Except PyError Dict :=
  serializeFields obj [] meta.compiled_read_fields

/-- One iteration of the `_deserialize` loop: owner-bound setters receive a
direct `data[name]` lookup; otherwise a required field looks the key up
(KeyError when absent) while an optional one defaults to the marker, the
converter runs only when present and (required or value not the marker), and
the setter is invoked on the (possibly converted) value in every case. -/
def runWriteField (data : Dict) (v : Obj) (f : WriteField) : Except PyError Obj :=
  if f.pass_self then
    match dictGetItem data f.name with
    | Except.error e => Except.error e
    | Except.ok value => Except.ok (f.setter v value)
  else
    match (if f.required then dictGetItem data f.name
           else Except.ok ((dictGet data f.name).getD Value.pyNone)) with
    | Except.error e => Except.error e
    | Except.ok value =>
      match f.to_internal with
      | some conv =>
        if f.required || !value.isNone then
          match conv value with
          | Except.error e => Except.error e
          | Except.ok value2 => Except.ok (f.setter v value2)
        else Except.ok (f.setter v value)
      | Option.none => Except.ok (f.setter v value)

/-- The `_deserialize` loop over the compiled write entries, threading the
target object being reconstructed. -/
def deserializeFields (data : Dict) : Obj → List WriteField → Except PyError Obj
  | v, [] => Except.ok v
  | v, f :: rest =>
    match runWriteField data v f with
    | Except.error e => Except.error e
    | Except.ok v2 => deserializeFields data v2 rest

/-- `Serializer._deserialize(data, fields)`: `v = self._meta.cls()` raises
TypeError when `cls` is the default `None`; otherwise run the write pipeline
over the freshly constructed target. -/
def _deserialize (meta : Meta) (data : Dict) : Except PyError Obj :=
  match meta.cls with
  | Option.none => Except.error (PyError.typeError "NoneType object is not callable")
  | some v0 => deserializeFields data v0 meta.compiled_write_fields

/-- `Serializer.to_representation` in single-object mode. -/
def to_representation (meta : Meta) (obj : Obj) : Except PyError Dict :=
  _serialize meta obj

/-- `Serializer.to_representation` in batch (`many=True`) mode: serialize
each item eagerly, in order; the first error aborts the batch. -/
def to_representation_many (meta : Meta) (objs : List Obj) :
    Except PyError (List Dict) :=
  objs.mapM (_serialize meta)

/-- `Serializer.to_internal_value` in single-object mode. -/
def to_internal_value (meta : Meta) (data : Dict) : Except PyError Obj :=
  _deserialize meta data

/-- `Serializer.to_internal_value` in batch (`many=True`) mode. -/
def to_internal_value_many (meta : Meta) (ds : List Dict) :
    Except PyError (List Obj) :=
  ds.mapM (_deserialize meta)

/-- A serializer instance as `Serializer.__init__` builds it. An attribute
of the Python instance that `__init__` may leave unset is modelled as an
outer Option (`Option.none` = attribute never assigned, so reading it raises
AttributeError); the inner Option of the cache slots models their initial
Python `None`. The batch (`many=True`) instance layer is modelled by the
pipeline-level batch operations above; the instance layer here covers the
single-object case the claims exercise. -/
structure SerializerInst where
  meta : Meta
  _can_serialize : Bool
  _can_deserialize : Bool
  _initial_instance : Option Obj
  _data : Option (Option Dict)
  _initial_data : Option Dict
  _instance : Option (Option Obj)

/-- `Serializer.__init__(instance, data)`: serialization mode when a source
object is given, deserialization mode when only data is given; each mode
assigns only its own pair of attributes. -/
def makeSerializer (meta : Meta) (inst : Option Obj) (data : Option Dict) :
    SerializerInst :=
  let can_s := inst.isSome
  let can_d := !can_s && data.isSome
  { meta := meta
    _can_serialize := can_s
    _can_deserialize := can_d
    _initial_instance := if can_s then inst else Option.none
    _data := if can_s then some Option.none else Option.none
    _initial_data := if can_d then data else Option.none
    _instance := if can_d then some Option.none else Option.none }

/-- The `Serializer.data` property: reading `self._data` raises
AttributeError when the attribute was never assigned; an initial `None`
cache slot triggers computation via `to_representation` on
`self._initial_instance`. -/
def SerializerInst.dataProp (s : SerializerInst) : Except PyError Dict :=
  match s._data with
  | Option.none => Except.error (PyError.attributeError "_data")
  | some (some cached) => Except.ok cached
  | some Option.none =>
    match s._initial_instance with
    | Option.none => Except.error (PyError.attributeError "_initial_instance")
    | some obj => to_representation s.meta obj

/-- The `Serializer.deserialized_value` property: reading `self._instance`
raises AttributeError when the attribute was never assigned; an initial
`None` cache slot triggers computation via `to_internal_value` on
`self._initial_data`. -/
def SerializerInst.deserializedValue (s : SerializerInst) : Except PyError Obj :=
  match s._instance with
  | Option.none => Except.error (PyError.attributeError "_instance")
  | some (some cached) => Except.ok cached
  | some Option.none =>
    match s._initial_data with
    | Option.none => Except.error (PyError.attributeError "_initial_data")
    | some dt => to_internal_value s.meta dt

/-! ### Dictionary lemmas -/

theorem dictUpdate_nil {α : Type} (d : List (String × α)) : dictUpdate d [] = d := rfl

theorem dictUpdate_cons {α : Type} (d : List (String × α)) (p : String × α)
    (e : List (String × α)) :
    dictUpdate d (p :: e) = dictUpdate (dictInsert d p.1 p.2) e := rfl

theorem dictGet_eq_none_of_hasKey {α : Type} {d : List (String × α)} {k : String}
    (h : hasKey d k = false) : dictGet d k = Option.none := by
  induction d with
  | nil => rfl
  | cons p rest ih =>
    obtain ⟨k1, v1⟩ := p
    by_cases hk : k1 = k
    · simp [hasKey, hk] at h
    · simp [hasKey, hk] at h
      simp [dictGet, hk, ih h]

theorem hasKey_of_dictGet {α : Type} {d : List (String × α)} {k : String} {v : α}
    (h : dictGet d k = some v) : hasKey d k = true := by
  induction d with
  | nil => simp [dictGet] at h
  | cons p rest ih =>
    obtain ⟨k1, v1⟩ := p
    by_cases hk : k1 = k
    · simp [hasKey, hk]
    · simp [dictGet, hk] at h
      simp [hasKey, hk, ih h]

theorem dictGet_setKey_self {α : Type} {d : List (String × α)} {k : String} (v : α)
    (h : hasKey d k = true) : dictGet (setKey d k v) k = some v := by
  induction d with
  | nil => simp [hasKey] at h
  | cons p rest ih =>
    obtain ⟨k1, v1⟩ := p
    by_cases hk : k1 = k
    · simp [setKey, hk, dictGet]
    · simp [hasKey, hk] at h
      simp [setKey, hk, dictGet, ih h]

theorem dictGet_setKey_ne {α : Type} {d : List (String × α)} {k k2 : String} (v : α)
    (h : k2 ≠ k) : dictGet (setKey d k v) k2 = dictGet d k2 := by
  induction d with
  | nil => rfl
  | cons p rest ih =>
    obtain ⟨k1, v1⟩ := p
    by_cases hk : k1 = k
    · have hne : ¬(k = k2) := fun hh => h hh.symm
      have hne2 : ¬(k1 = k2) := fun hh => h (hh.symm.trans hk)
      simp [setKey, hk, dictGet, hne, hne2, ih]
    · by_cases h2 : k1 = k2
      · simp [setKey, hk, dictGet, h2, h, ih]
      · simp [setKey, hk, dictGet, h2, ih]

theorem dictGet_append {α : Type} (d e : List (String × α)) (k : String) :
    dictGet (d ++ e) k =
      match dictGet d k with
      | some v => some v
      | Option.none => dictGet e k := by
  induction d with
  | nil => simp [dictGet]
  | cons p rest ih =>
    obtain ⟨k1, v1⟩ := p
    by_cases hk : k1 = k
    · simp [dictGet, hk]
    · simp [dictGet, hk, ih]

theorem dictGet_dictInsert_self {α : Type} (d : List (String × α)) (k : String) (v : α) :
    dictGet (dictInsert d k v) k = some v := by
  unfold dictInsert
  cases h : hasKey d k with
  | true => simp [dictGet_setKey_self v h]
  | false =>
    simp only [Bool.false_eq_true, if_false]
    rw [dictGet_append, dictGet_eq_none_of_hasKey h]
    simp [dictGet]

theorem dictGet_dictInsert_ne {α : Type} {d : List (String × α)} {k k2 : String} (v : α)
    (h : k2 ≠ k) : dictGet (dictInsert d k v) k2 = dictGet d k2 := by
  unfold dictInsert
  cases hk : hasKey d k with
  | true => simp [dictGet_setKey_ne v h]
  | false =>
    simp only [Bool.false_eq_true, if_false]
    rw [dictGet_append]
    cases hd : dictGet d k2 with
    | some w => rfl
    | none =>
      have hne : ¬(k = k2) := fun hh => h hh.symm
      simp [dictGet, hne]

theorem keys_setKey {α : Type} (d : List (String × α)) (k : String) (v : α) :
    keys (setKey d k v) = keys d := by
  induction d with
  | nil => rfl
  | cons p rest ih =>
    obtain ⟨k1, v1⟩ := p
    by_cases hk : k1 = k
    · simp [setKey, hk, keys] at ih ⊢
      exact ih
    · simp [setKey, hk, keys] at ih ⊢
      exact ih

theorem mem_keys_iff_hasKey {α : Type} (d : List (String × α)) (k : String) :
    k ∈ keys d ↔ hasKey d k = true := by
  induction d with
  | nil => simp [keys, hasKey]
  | cons p rest ih =>
    obtain ⟨k1, v1⟩ := p
    simp only [keys, List.map_cons, List.mem_cons, hasKey, Bool.or_eq_true,
      decide_eq_true_eq]
    constructor
    · rintro (h1 | h1)
      · exact Or.inl h1.symm
      · exact Or.inr (ih.mp h1)
    · rintro (h1 | h1)
      · exact Or.inl h1.symm
      · exact Or.inr (ih.mpr h1)

theorem nodup_keys_dictInsert {α : Type} {d : List (String × α)} (k : String) (v : α)
    (h : (keys d).Nodup) : (keys (dictInsert d k v)).Nodup := by
  unfold dictInsert
  cases hk : hasKey d k with
  | true => simpa [keys_setKey] using h
  | false =>
    simp only [Bool.false_eq_true, if_false]
    have hnotmem : k ∉ keys d := fun hm => by
      rw [mem_keys_iff_hasKey] at hm
      rw [hm] at hk
      cases hk
    have hkeys : keys (d ++ [(k, v)]) = keys d ++ [k] := by simp [keys]
    rw [hkeys]
    refine List.Nodup.append h (List.nodup_singleton k) ?_
    intro x hx hx2
    rw [List.mem_singleton] at hx2
    exact hnotmem (hx2 ▸ hx)

theorem nodup_keys_dictUpdate {α : Type} (e : List (String × α)) :
    ∀ d : List (String × α), (keys d).Nodup → (keys (dictUpdate d e)).Nodup := by
  induction e with
  | nil => intro d h; exact h
  | cons p rest ih =>
    intro d h
    rw [dictUpdate_cons]
    exact ih _ (nodup_keys_dictInsert p.1 p.2 h)

theorem dictGet_dictUpdate_of_hasKey_false {α : Type} (e : List (String × α)) :
    ∀ (d : List (String × α)) (k : String), hasKey e k = false →
      dictGet (dictUpdate d e) k = dictGet d k := by
  induction e with
  | nil => intro d k _; rfl
  | cons p rest ih =>
    intro d k h
    obtain ⟨k1, v1⟩ := p
    by_cases hk : k1 = k
    · simp [hasKey, hk] at h
    · simp [hasKey, hk] at h
      rw [dictUpdate_cons]
      rw [ih _ _ h]
      exact dictGet_dictInsert_ne v1 (fun hh => hk hh.symm)

theorem dictGet_dictUpdate_of_mem {α : Type} (e : List (String × α)) :
    ∀ (d : List (String × α)) (k : String) (v : α), (keys e).Nodup →
      dictGet e k = some v → dictGet (dictUpdate d e) k = some v := by
  induction e with
  | nil => intro d k v _ h; simp [dictGet] at h
  | cons p rest ih =>
    intro d k v hnd h
    obtain ⟨k1, v1⟩ := p
    have hnd2 := hnd
    rw [show keys ((k1, v1) :: rest) = k1 :: keys rest from rfl,
      List.nodup_cons] at hnd2
    obtain ⟨hnotmem, hrest⟩ := hnd2
    by_cases hk : k1 = k
    · subst hk
      simp [dictGet] at h
      subst h
      rw [dictUpdate_cons]
      have hnk : hasKey rest k1 = false := by
        cases hh : hasKey rest k1 with
        | false => rfl
        | true => exact absurd ((mem_keys_iff_hasKey rest k1).mpr hh) hnotmem
      rw [dictGet_dictUpdate_of_hasKey_false rest _ _ hnk]
      exact dictGet_dictInsert_self d k1 v1
    · simp [dictGet, hk] at h
      rw [dictUpdate_cons]
      exact ih _ _ _ hrest h

theorem dictGet_of_mem_nodup {α : Type} {d : List (String × α)} {k : String} {v : α}
    (hnd : (keys d).Nodup) (h : (k, v) ∈ d) : dictGet d k = some v := by
  induction d with
  | nil => simp at h
  | cons p rest ih =>
    obtain ⟨k1, v1⟩ := p
    have hnd2 := hnd
    rw [show keys ((k1, v1) :: rest) = k1 :: keys rest from rfl,
      List.nodup_cons] at hnd2
    obtain ⟨hnotmem, hrest⟩ := hnd2
    rcases List.mem_cons.mp h with heq | hmem
    · injection heq with h1 h2
      subst h1
      subst h2
      simp [dictGet]
    · by_cases hk : k1 = k
      · subst hk
        have : k1 ∈ keys rest := List.mem_map_of_mem Prod.fst hmem
        exact absurd this hnotmem
      · simp [dictGet, hk]
        exact ih hrest hmem

theorem mem_keys_of_dictGet {α : Type} {d : List (String × α)} {k : String} {v : α}
    (h : dictGet d k = some v) : k ∈ keys d :=
  (mem_keys_iff_hasKey d k).mpr (hasKey_of_dictGet h)

theorem exists_dictGet_of_mem_keys {α : Type} {d : List (String × α)} {k : String}
    (h : k ∈ keys d) : ∃ v, dictGet d k = some v := by
  rw [mem_keys_iff_hasKey] at h
  induction d with
  | nil => cases h
  | cons p rest ih =>
    obtain ⟨k1, v1⟩ := p
    by_cases hk : k1 = k
    · exact ⟨v1, by simp [dictGet, hk]⟩
    · simp [hasKey, hk] at h
      obtain ⟨v, hv⟩ := ih h
      exact ⟨v, by simp [dictGet, hk, hv]⟩

/-! ### Pipeline lemmas -/

theorem attrgetter_single (n : String) (o : Obj) (h : splitDots n = [n]) :
    attrgetter n o = getattrV (Value.obj o) n := by
  unfold attrgetter
  rw [h]
  simp [List.foldlM]

theorem getattrV_obj_some {o : Obj} {n : String} {w : Value}
    (h : dictGet o n = some w) : getattrV (Value.obj o) n = Except.ok w := by
  simp [getattrV, h]

theorem getattrV_obj_none {o : Obj} {n : String}
    (h : dictGet o n = Option.none) :
    getattrV (Value.obj o) n = Except.error (PyError.attributeError n) := by
  simp [getattrV, h]

theorem runReadField_pass_getter (obj : Obj) (acc : Dict) (f : ReadField) (w : Value)
    (h1 : f.pass_self = false) (h2 : f.call = false) (h3 : f.to_repr = Option.none)
    (h4 : f.getter obj = Except.ok w) :
    runReadField obj acc f = Except.ok (dictInsert acc f.name w) := by
  unfold runReadField
  rw [h1, h2, h3, h4]
  split <;> simp

theorem runReadField_getter_error (obj : Obj) (acc : Dict) (f : ReadField) (e : PyError)
    (h1 : f.pass_self = false) (h4 : f.getter obj = Except.error e) :
    runReadField obj acc f = Except.error e := by
  unfold runReadField
  rw [h1, h4]
  simp

theorem runReadField_optional_marker (obj : Obj) (acc : Dict) (f : ReadField)
    (h1 : f.pass_self = false) (h2 : f.required = false)
    (h4 : f.getter obj = Except.ok Value.pyNone) :
    runReadField obj acc f = Except.ok (dictInsert acc f.name Value.pyNone) := by
  unfold runReadField
  rw [h1, h2, h4]
  simp [Value.isNone]

theorem runReadField_required_conv (obj : Obj) (acc : Dict) (f : ReadField)
    (conv : Value → Except PyError Value) (w : Value)
    (h1 : f.pass_self = false) (hr : f.required = true) (h2 : f.call = false)
    (h3 : f.to_repr = some conv) (h4 : f.getter obj = Except.ok w) :
    runReadField obj acc f =
      match conv w with
      | Except.error e => Except.error e
      | Except.ok w2 => Except.ok (dictInsert acc f.name w2) := by
  unfold runReadField
  rw [h1, h2, h3, h4, hr]
  simp

theorem runReadField_ok_shape {obj : Obj} {acc : Dict} {f : ReadField} {acc2 : Dict}
    (h : runReadField obj acc f = Except.ok acc2) :
    ∃ w, acc2 = dictInsert acc f.name w := by
  unfold runReadField at h
  split at h
  · split at h
    · cases h
    · injection h with h
      exact ⟨_, h.symm⟩
  · split at h
    · cases h
    · split at h
      · split at h
        · cases h
        · split at h
          · split at h
            · cases h
            · injection h with h
              exact ⟨_, h.symm⟩
          · injection h with h
            exact ⟨_, h.symm⟩
      · injection h with h
        exact ⟨_, h.symm⟩

theorem serializeFields_pointwise (obj : Obj) (g : String → Value) :
    ∀ (fs : List ReadField) (acc : Dict),
      (fs.map ReadField.name).Nodup →
      (∀ f ∈ fs, f.pass_self = false ∧ f.call = false ∧ f.to_repr = Option.none ∧
        f.getter obj = Except.ok (g f.name)) →
      ∃ dct, serializeFields obj acc fs = Except.ok dct ∧
        ∀ k, dictGet dct k =
          if k ∈ fs.map ReadField.name then some (g k) else dictGet acc k := by
  intro fs
  induction fs with
  | nil => exact fun acc _ _ => ⟨acc, rfl, fun k => by simp⟩
  | cons f rest ih =>
    intro acc hnd h
    rw [List.map_cons, List.nodup_cons] at hnd
    obtain ⟨hfn, hndr⟩ := hnd
    obtain ⟨h1, h2, h3, h4⟩ := h f (List.mem_cons_self f rest)
    have hrun := runReadField_pass_getter obj acc f (g f.name) h1 h2 h3 h4
    obtain ⟨dct, hd, hpt⟩ := ih (dictInsert acc f.name (g f.name)) hndr
      (fun f2 hf2 => h f2 (List.mem_cons_of_mem f hf2))
    refine ⟨dct, ?_, ?_⟩
    · simp only [serializeFields, hrun]
      exact hd
    · intro k
      rw [hpt k]
      by_cases hk : k ∈ rest.map ReadField.name
      · rw [if_pos hk, if_pos (by simp [hk])]
      · rw [if_neg hk]
        by_cases hkf : k = f.name
        · subst hkf
          rw [dictGet_dictInsert_self, if_pos (by simp)]
        · rw [dictGet_dictInsert_ne _ hkf,
            if_neg (by simp [hkf, hk])]

theorem serializeFields_isSome_mono {obj : Obj} {k : String} :
    ∀ {fs : List ReadField} {acc dct : Dict},
      serializeFields obj acc fs = Except.ok dct →
      (dictGet acc k).isSome = true → (dictGet dct k).isSome = true := by
  intro fs
  induction fs with
  | nil =>
    intro acc dct h hs
    injection h with h
    exact h ▸ hs
  | cons f rest ih =>
    intro acc dct h hs
    simp only [serializeFields] at h
    cases hr : runReadField obj acc f with
    | error e => rw [hr] at h; cases h
    | ok acc2 =>
      rw [hr] at h
      obtain ⟨w, hw⟩ := runReadField_ok_shape hr
      subst hw
      refine ih h ?_
      by_cases hk : k = f.name
      · subst hk
        rw [dictGet_dictInsert_self]
        rfl
      · rw [dictGet_dictInsert_ne _ hk]
        exact hs

theorem serializeFields_names_isSome {obj : Obj} :
    ∀ {fs : List ReadField} {acc dct : Dict},
      serializeFields obj acc fs = Except.ok dct →
      ∀ f ∈ fs, (dictGet dct f.name).isSome = true := by
  intro fs
  induction fs with
  | nil => intro acc dct _ f hf; cases hf
  | cons f rest ih =>
    intro acc dct h f2 hf2
    simp only [serializeFields] at h
    cases hr : runReadField obj acc f with
    | error e => rw [hr] at h; cases h
    | ok acc2 =>
      rw [hr] at h
      rcases List.mem_cons.mp hf2 with heq | hmem
      · subst heq
        obtain ⟨w, hw⟩ := runReadField_ok_shape hr
        subst hw
        exact serializeFields_isSome_mono h
          (by rw [dictGet_dictInsert_self]; rfl)
      · exact ih h f2 hmem

theorem runWriteField_present (data : Dict) (v : Obj) (f : WriteField) (w : Value)
    (h1 : f.pass_self = false) (h3 : f.to_internal = Option.none)
    (h4 : dictGet data f.name = some w) :
    runWriteField data v f = Except.ok (f.setter v w) := by
  unfold runWriteField
  rw [h1, h3]
  simp [dictGetItem, h4]

theorem runWriteField_absent_optional (data : Dict) (v : Obj) (f : WriteField)
    (h1 : f.pass_self = false) (h2 : f.required = false)
    (h4 : dictGet data f.name = Option.none) :
    runWriteField data v f = Except.ok (f.setter v Value.pyNone) := by
  unfold runWriteField
  rw [h1, h2, h4]
  cases h3 : f.to_internal <;> simp [Value.isNone]

theorem runWriteField_ok_shape {data : Dict} {v : Obj} {f : WriteField} {v2 : Obj}
    (h : runWriteField data v f = Except.ok v2) :
    ∃ w, v2 = f.setter v w := by
  unfold runWriteField at h
  split at h
  · split at h
    · cases h
    · injection h with h
      exact ⟨_, h.symm⟩
  · split at h
    · cases h
    · split at h
      · split at h
        · split at h
          · cases h
          · injection h with h
            exact ⟨_, h.symm⟩
        · injection h with h
          exact ⟨_, h.symm⟩
      · injection h with h
        exact ⟨_, h.symm⟩

theorem deserializeFields_pointwise (data : Dict) (g : String → Value) :
    ∀ (fs : List WriteField) (v : Obj),
      (fs.map WriteField.name).Nodup →
      (∀ f ∈ fs, f.pass_self = false ∧ f.to_internal = Option.none ∧
        f.setter = attrsetter f.name ∧ dictGet data f.name = some (g f.name)) →
      ∃ v2, deserializeFields data v fs = Except.ok v2 ∧
        ∀ k, dictGet v2 k =
          if k ∈ fs.map WriteField.name then some (g k) else dictGet v k := by
  intro fs
  induction fs with
  | nil => exact fun v _ _ => ⟨v, rfl, fun k => by simp⟩
  | cons f rest ih =>
    intro v hnd h
    rw [List.map_cons, List.nodup_cons] at hnd
    obtain ⟨hfn, hndr⟩ := hnd
    obtain ⟨h1, h3, hset, h4⟩ := h f (List.mem_cons_self f rest)
    have hrun := runWriteField_present data v f (g f.name) h1 h3 h4
    rw [hset] at hrun
    obtain ⟨v2, hd, hpt⟩ := ih (attrsetter f.name v (g f.name)) hndr
      (fun f2 hf2 => h f2 (List.mem_cons_of_mem f hf2))
    refine ⟨v2, ?_, ?_⟩
    · simp only [deserializeFields, hrun]
      exact hd
    · intro k
      rw [hpt k]
      by_cases hk : k ∈ rest.map WriteField.name
      · rw [if_pos hk, if_pos (by simp [hk])]
      · rw [if_neg hk]
        by_cases hkf : k = f.name
        · subst hkf
          rw [show attrsetter f.name v (g f.name) = dictInsert v f.name (g f.name)
            from rfl]
          rw [dictGet_dictInsert_self, if_pos (by simp)]
        · rw [show attrsetter f.name v (g f.name) = dictInsert v f.name (g f.name)
            from rfl]
          rw [dictGet_dictInsert_ne _ hkf, if_neg (by simp [hkf, hk])]

theorem deserializeFields_preserve (data : Dict) (t : String) :
    ∀ (fs : List WriteField) (v v2 : Obj),
      (∀ f ∈ fs, ∃ s, s ≠ t ∧ f.setter = attrsetter s) →
      deserializeFields data v fs = Except.ok v2 →
      dictGet v2 t = dictGet v t := by
  intro fs
  induction fs with
  | nil =>
    intro v v2 _ h
    injection h with h
    rw [h]
  | cons f rest ih =>
    intro v v2 hset h
    simp only [deserializeFields] at h
    cases hr : runWriteField data v f with
    | error e => rw [hr] at h; cases h
    | ok v1 =>
      rw [hr] at h
      obtain ⟨w, hw⟩ := runWriteField_ok_shape hr
      obtain ⟨s, hs1, hs2⟩ := hset f (List.mem_cons_self f rest)
      rw [ih v1 v2 (fun f2 hf2 => hset f2 (List.mem_cons_of_mem f hf2)) h]
      rw [hw, hs2]
      exact dictGet_dictInsert_ne w (fun hh => hs1 hh.symm)

/-! ### Compile-step lemmas -/

theorem nodup_keys_foldl_dictUpdate (bs : List Meta) :
    ∀ m : List (String × Field), (keys m).Nodup →
      (keys (bs.foldl (fun acc b => dictUpdate acc b.field_map) m)).Nodup := by
  induction bs with
  | nil => exact fun m h => h
  | cons b rest ih => exact fun m h => ih _ (nodup_keys_dictUpdate _ _ h)

theorem field_map_nodup (d : SerializerClassDef) :
    (keys (_compile_meta d).field_map).Nodup :=
  nodup_keys_dictUpdate _ _
    (nodup_keys_foldl_dictUpdate d.base_metas.reverse [] (by simp [keys]))

theorem compiled_read_names (d : SerializerClassDef) :
    (_compile_meta d).compiled_read_fields.map ReadField.name =
      keys (_compile_meta d).field_map := by
  show (List.map _ _).map _ = _
  rw [List.map_map]
  rfl

theorem compiled_write_names (d : SerializerClassDef) :
    (_compile_meta d).compiled_write_fields.map WriteField.name =
      keys ((_compile_meta d).field_map.filter (fun p => !p.2.read_only)) := by
  show ((List.filter _ _).map _).map _ = _
  rw [List.map_map]
  rfl

/-! ### Claim C1: diamond inheritance and override precedence -/

/-- Field `a` as declared on schema A; its converter tags values with the
declaring class so provenance is observable in the representation. -/
def fieldA : Field :=
  { to_representation := some (fun v => Except.ok (Value.obj [("A", v)])) }

/-- Field `b` as declared on schema B. -/
def fieldB : Field :=
  { to_representation := some (fun v => Except.ok (Value.obj [("B", v)])) }

/-- Field `c` as declared on schema C. -/
def fieldC : Field :=
  { to_representation := some (fun v => Except.ok (Value.obj [("C", v)])) }

/-- Field `a` as re-declared directly on schema D. -/
def fieldD : Field :=
  { to_representation := some (fun v => Except.ok (Value.obj [("D", v)])) }

/-- Schema A: declares `a`. -/
def metaA : Meta := _compile_meta { direct_fields := [("a", fieldA)] }

/-- Schema B extends A and adds `b`. -/
def metaB : Meta :=
  _compile_meta { base_metas := [metaA], direct_fields := [("b", fieldB)] }

/-- Schema C: declares `c`. -/
def metaC : Meta := _compile_meta { direct_fields := [("c", fieldC)] }

/-- Schema D extends B and C (diamond through the Serializer base). -/
def metaD : Meta := _compile_meta { base_metas := [metaB, metaC] }

/-- Schema D with `a` re-declared directly on D. -/
def metaD2 : Meta :=
  _compile_meta { base_metas := [metaB, metaC], direct_fields := [("a", fieldD)] }

/-- A source object carrying `a`, `b`, `c`. -/
def xD : Obj := [("a", Value.int 1), ("b", Value.int 2), ("c", Value.int 3)]

/-- C1: in the diamond A / B(A) / C / D(B, C), the merged field map of D binds
`a`, `b`, `c` to the descriptors declared by A, B, C respectively, and
serializing a D instance routes each source attribute through the declaring
converter of the declaring ancestor; re-declaring `a` directly on D makes the direct
descriptor win; and in general a field declared directly on a class
overrides any inherited binding of the same name in the compiled field
map. -/
theorem claim1_diamond_override :
    (dictGet metaD.field_map "a" = some fieldA ∧
     dictGet metaD.field_map "b" = some fieldB ∧
     dictGet metaD.field_map "c" = some fieldC) ∧
    _serialize metaD xD = Except.ok
      [("c", Value.obj [("C", Value.int 3)]),
       ("a", Value.obj [("A", Value.int 1)]),
       ("b", Value.obj [("B", Value.int 2)])] ∧
    (dictGet metaD2.field_map "a" = some fieldD ∧
     _serialize metaD2 xD = Except.ok
      [("c", Value.obj [("C", Value.int 3)]),
       ("a", Value.obj [("D", Value.int 1)]),
       ("b", Value.obj [("B", Value.int 2)])]) ∧
    (∀ (d : SerializerClassDef) (n : String) (f : Field),
      (keys d.direct_fields).Nodup → dictGet d.direct_fields n = some f →
      dictGet (_compile_meta d).field_map n = some f) :=
  ⟨⟨rfl, rfl, rfl⟩, rfl, ⟨rfl, rfl⟩,
   fun d n f hnd h => dictGet_dictUpdate_of_mem d.direct_fields _ n f hnd h⟩

/-- C1 witness: the override clause applied to the concrete definition of D
with `a` re-declared directly. -/
theorem claim1_diamond_override_witness :
    dictGet (_compile_meta
      { base_metas := [metaB, metaC]
        direct_fields := [("a", fieldD)] }).field_map "a" = some fieldD :=
  claim1_diamond_override.2.2.2
    { base_metas := [metaB, metaC], direct_fields := [("a", fieldD)] }
    "a" fieldD (List.nodup_singleton "a") rfl

/-! ### Claim C5: wrong-direction access -/

/-- C5: an instance built in deserialization mode (data, no source object)
raises on `data` because `self._data` was never assigned; an instance built
in serialization mode (source object given) raises on `deserialized_value`
because `self._instance` was never assigned; an instance built with neither
raises on both. -/
theorem claim5_wrong_direction (meta : Meta) (o : Obj) (dt : Dict)
    (dt2 : Option Dict) :
    (makeSerializer meta Option.none (some dt)).dataProp
      = Except.error (PyError.attributeError "_data") ∧
    (makeSerializer meta (some o) dt2).deserializedValue
      = Except.error (PyError.attributeError "_instance") ∧
    (makeSerializer meta Option.none Option.none).dataProp
      = Except.error (PyError.attributeError "_data") ∧
    (makeSerializer meta Option.none Option.none).deserializedValue
      = Except.error (PyError.attributeError "_instance") :=
  ⟨rfl, rfl, rfl, rfl⟩

/-! ### Claim C6: missing target constructor is a deferred error -/

/-- C6: the compiled pipelines and field map never depend on the declared
target constructor (compilation always succeeds regardless of it), and when
no constructor resolves, every `_deserialize` call fails at reconstruction
time with the TypeError from calling `None`. -/
theorem claim6_deferred_constructor_error (d : SerializerClassDef)
    (c1 c2 : Option (Option Obj)) (hnone : resolveCls d = Option.none) :
    ((_compile_meta { d with meta_cls := c1 }).field_map
        = (_compile_meta { d with meta_cls := c2 }).field_map ∧
     (_compile_meta { d with meta_cls := c1 }).compiled_read_fields
        = (_compile_meta { d with meta_cls := c2 }).compiled_read_fields ∧
     (_compile_meta { d with meta_cls := c1 }).compiled_write_fields
        = (_compile_meta { d with meta_cls := c2 }).compiled_write_fields) ∧
    ∀ data : Dict, _deserialize (_compile_meta d) data
      = Except.error (PyError.typeError "NoneType object is not callable") := by
  refine ⟨⟨rfl, rfl, rfl⟩, fun data => ?_⟩
  unfold _deserialize
  have hc : (_compile_meta d).cls = Option.none := hnone
  rw [hc]

/-- C6 witness: a schema with one field and no constructor anywhere. -/
theorem claim6_deferred_constructor_error_witness :
    _deserialize (_compile_meta { direct_fields := [("a", ({} : Field))] }) []
      = Except.error (PyError.typeError "NoneType object is not callable") :=
  (claim6_deferred_constructor_error
    { direct_fields := [("a", ({} : Field))] } Option.none Option.none rfl).2 []

/-! ### Claim C10: the invocable flag is dead in the write pipeline -/

/-- A compiled write entry with its invocable flag replaced. -/
def withCallFlag (f : WriteField) (b : Bool) : WriteField := { f with call := b }

theorem runWriteField_withCallFlag (data : Dict) (v : Obj) (f : WriteField)
    (b : Bool) : runWriteField data v (withCallFlag f b) = runWriteField data v f :=
  rfl

theorem deserializeFields_withCallFlag (data : Dict) (g : WriteField → Bool) :
    ∀ (fs : List WriteField) (v : Obj),
      deserializeFields data v (fs.map (fun f => withCallFlag f (g f)))
        = deserializeFields data v fs := by
  intro fs
  induction fs with
  | nil => intro v; rfl
  | cons f rest ih =>
    intro v
    simp only [List.map_cons, deserializeFields, runWriteField_withCallFlag]
    cases runWriteField data v f with
    | error e => rfl
    | ok v2 => exact ih v2

/-- C10: each compiled write entry carries the invocable flag of its field,
but `_deserialize` never consults it — rewriting the flag of every entry arbitrarily
leaves the result of every deserialization unchanged. -/
theorem claim10_call_flag_unused_in_write (meta : Meta) (g : WriteField → Bool)
    (data : Dict) :
    _deserialize { meta with compiled_write_fields :=
        meta.compiled_write_fields.map (fun f => withCallFlag f (g f)) } data
      = _deserialize meta data ∧
    ∀ (fld : Field) (nm : String) (ds : String → Obj → Value → Obj),
      (_compile_write_field_to_tuple fld nm ds).call = fld.call := by
  refine ⟨?_, fun fld nm ds => rfl⟩
  obtain ⟨fm, rfs, wfs, cls⟩ := meta
  cases cls with
  | none => rfl
  | some v0 => exact deserializeFields_withCallFlag data g wfs v0

/-! ### Claim C3: dotted-path asymmetry (corrected) -/

/-- Evaluation of the default getter on a single-segment path over a
present attribute. -/
theorem default_getter_eval {n : String} {x : Obj} {w : Value}
    (hn : splitDots n = [n]) (hx : dictGet x n = some w) :
    attrgetter n x = Except.ok w := by
  rw [attrgetter_single n x hn]
  exact getattrV_obj_some hx

/-- A field aliased to the dotted path a.b.c. -/
def fieldDotC3 : Field := { attr := some "a.b.c" }

/-- A one-field schema over the dotted alias, with a target constructor. -/
def metaDotC3 : Meta :=
  _compile_meta { direct_fields := [("a", fieldDotC3)], meta_cls := some (some []) }

/-- C3 counterexample: for the field named `a` aliased to `a.b.c`, the read
pipeline does navigate the nested attributes, but deserializing the mapping
with key `a` binds the single attribute literally named "a.b.c" (the full
alias path string) and leaves the attribute named `a` — the own name of the
field — unset, contradicting the claim that the write pipeline only ever
sets an attribute named by the own name of the field. -/
theorem claim3_dotted_path_counterexample :
    _serialize metaDotC3 [("a", Value.obj [("b", Value.obj [("c", Value.int 2)])])]
      = Except.ok [("a", Value.int 2)] ∧
    _deserialize metaDotC3 [("a", Value.int 2)]
      = Except.ok [("a.b.c", Value.int 2)] ∧
    dictGet ([("a.b.c", Value.int 2)] : Obj) "a" = Option.none :=
  ⟨rfl, rfl, rfl⟩

/-- C3 (amended): the read pipeline navigates the intermediate attributes of
a dotted source path; the write pipeline never creates intermediate nested
objects and only ever sets a single attribute on the target object, whose
name is the full source-path string (the alias when declared, else the
field name). -/
theorem claim3_dotted_path_amended (n p : String) (f : Field) (w : Value)
    (v0 : Obj) (dt : Dict)
    (hattr : f.attr = some p) (hp : p ≠ "") (hro : f.read_only = false)
    (hset : f.as_setter = Option.none) (hpass : f.setter_takes_serializer = false)
    (hint : f.to_internal_value = Option.none)
    (hdata : dictGet dt n = some w) :
    (∀ v : Value,
      _serialize (_compile_meta
          { direct_fields := [("nested", ({ attr := some "a.b.c" } : Field))] })
        [("a", Value.obj [("b", Value.obj [("c", v)])])]
        = Except.ok [("nested", v)]) ∧
    _deserialize (_compile_meta
        { direct_fields := [(n, f)], meta_cls := some (some v0) }) dt
      = Except.ok (dictInsert v0 p w) := by
  constructor
  · intro v
    rfl
  · have hname : attr_or_name f n = p := by simp [attr_or_name, hattr, hp]
    have hfil : (_compile_meta
        { direct_fields := [(n, f)], meta_cls := some (some v0) }).compiled_write_fields
        = [_compile_write_field_to_tuple f n attrsetter] := by
      show (List.filter _ [(n, f)]).map _ = _
      simp [List.filter_cons, hro]
    rw [show _deserialize (_compile_meta
        { direct_fields := [(n, f)], meta_cls := some (some v0) }) dt
      = deserializeFields dt v0 (_compile_meta
        { direct_fields := [(n, f)], meta_cls := some (some v0) }).compiled_write_fields
      from rfl, hfil]
    have hrun := runWriteField_present dt v0
      (_compile_write_field_to_tuple f n attrsetter) w hpass hint hdata
    simp only [deserializeFields, hrun]
    show Except.ok ((match f.as_setter with
      | some s => s
      | Option.none => attrsetter (attr_or_name f n)) v0 w) = _
    rw [hset, hname]
    rfl

/-- C3 witness: the amended statement at the concrete dotted alias. -/
theorem claim3_dotted_path_amended_witness :
    (∀ v : Value,
      _serialize (_compile_meta
          { direct_fields := [("nested", ({ attr := some "a.b.c" } : Field))] })
        [("a", Value.obj [("b", Value.obj [("c", v)])])]
        = Except.ok [("nested", v)]) ∧
    _deserialize (_compile_meta
        { direct_fields := [("a", fieldDotC3)], meta_cls := some (some []) })
      [("a", Value.int 2)]
      = Except.ok (dictInsert [] "a.b.c" (Value.int 2)) :=
  claim3_dotted_path_amended "a" "a.b.c" fieldDotC3 (Value.int 2) [] [("a", Value.int 2)]
    rfl (by decide) rfl rfl rfl rfl rfl

/-! ### Claim C4: optional vs required on an absent (marker) value (corrected) -/

/-- C4 counterexample: a schema with the single required field `a` carrying
the identity conversion serializes the absent (marker-valued) source without
any error, yielding the marker — so a required field over an absent source
does not, in general, fail. -/
theorem claim4_optional_required_counterexample :
    _serialize (_compile_meta { direct_fields := [("a", ({} : Field))] })
      [("a", Value.pyNone)] = Except.ok [("a", Value.pyNone)] := rfl

/-- C4 (amended): with field `a` optional and the source attribute holding
the no-value marker, serialization yields the marker under key `a` without
error and without invoking whatever custom conversion is present; with `a`
required, the marker is passed into the conversion chain instead: a custom
conversion that rejects the marker (such as integer coercion) aborts
serialization with the error of that conversion, while the identity conversion
yields the marker without error. -/
theorem claim4_optional_required_amended (n : String) (x : Obj)
    (conv : Value → Except PyError Value) (e : PyError)
    (hn : splitDots n = [n]) (hmark : dictGet x n = some Value.pyNone)
    (herr : conv Value.pyNone = Except.error e) :
    (∀ c2 : Value → Except PyError Value,
      _serialize (_compile_meta { direct_fields :=
          [(n, ({ required := false, to_representation := some c2 } : Field))] }) x
        = Except.ok [(n, Value.pyNone)]) ∧
    _serialize (_compile_meta { direct_fields :=
        [(n, ({ to_representation := some conv } : Field))] }) x
      = Except.error e ∧
    _serialize (_compile_meta { direct_fields := [(n, ({} : Field))] }) x
      = Except.ok [(n, Value.pyNone)] := by
  refine ⟨fun c2 => ?_, ?_, ?_⟩
  · have hrun := runReadField_optional_marker x []
      (_compile_read_field_to_tuple
        { required := false, to_representation := some c2 } n attrgetter)
      rfl rfl (default_getter_eval hn hmark)
    show serializeFields x [] [_compile_read_field_to_tuple
      { required := false, to_representation := some c2 } n attrgetter] = _
    simp only [serializeFields, hrun]
    rfl
  · have hrun := runReadField_required_conv x []
      (_compile_read_field_to_tuple { to_representation := some conv } n attrgetter)
      conv Value.pyNone rfl rfl rfl rfl (default_getter_eval hn hmark)
    rw [herr] at hrun
    show serializeFields x [] [_compile_read_field_to_tuple
      { to_representation := some conv } n attrgetter] = _
    simp only [serializeFields, hrun]
  · have hrun := runReadField_pass_getter x []
      (_compile_read_field_to_tuple {} n attrgetter) Value.pyNone
      rfl rfl rfl (default_getter_eval hn hmark)
    show serializeFields x [] [_compile_read_field_to_tuple {} n attrgetter] = _
    simp only [serializeFields, hrun]
    rfl

/-- A conversion in the style of the integer field: it rejects the no-value
marker with a TypeError. -/
def intRejectMarker : Value → Except PyError Value :=
  fun _ => Except.error (PyError.typeError "int of NoneType")

/-- C4 witness: the amended statement at field name `a` with an integer-like
conversion that rejects the marker. -/
theorem claim4_optional_required_amended_witness :
    (∀ c2 : Value → Except PyError Value,
      _serialize (_compile_meta { direct_fields :=
          [("a", ({ required := false, to_representation := some c2 } : Field))] })
        [("a", Value.pyNone)]
        = Except.ok [("a", Value.pyNone)]) ∧
    _serialize (_compile_meta { direct_fields :=
        [("a", ({ to_representation := some intRejectMarker } : Field))] })
      [("a", Value.pyNone)]
      = Except.error (PyError.typeError "int of NoneType") ∧
    _serialize (_compile_meta { direct_fields := [("a", ({} : Field))] })
      [("a", Value.pyNone)]
      = Except.ok [("a", Value.pyNone)] :=
  claim4_optional_required_amended "a" [("a", Value.pyNone)]
    intRejectMarker (PyError.typeError "int of NoneType") rfl rfl rfl

/-! ### Claim C8: the getter runs before the required/absence check -/

/-- C8: with the default attribute accessor, a non-required field whose
attribute is entirely missing from the source makes `_serialize` fail with
the attribute-access error (the getter runs first; the required/absence
check never sees the miss), while the same field over an attribute that is
present and holds the marker short-circuits to the marker. -/
theorem claim8_getter_before_required_check (n : String) (f : Field) (x xp : Obj)
    (hn : splitDots n = [n]) (hreq : f.required = false)
    (hattr : f.attr = Option.none) (hag : f.as_getter = Option.none)
    (hpass : f.getter_takes_serializer = false)
    (hmiss : dictGet x n = Option.none)
    (hmark : dictGet xp n = some Value.pyNone) :
    _serialize (_compile_meta { direct_fields := [(n, f)] }) x
      = Except.error (PyError.attributeError n) ∧
    _serialize (_compile_meta { direct_fields := [(n, f)] }) xp
      = Except.ok [(n, Value.pyNone)] := by
  have hget : (_compile_read_field_to_tuple f n attrgetter).getter = attrgetter n := by
    show (match f.as_getter with
      | some g => g
      | Option.none => attrgetter (attr_or_name f n)) = _
    rw [hag]
    simp [attr_or_name, hattr]
  constructor
  · have hrun := runReadField_getter_error x []
      (_compile_read_field_to_tuple f n attrgetter) (PyError.attributeError n)
      hpass (by rw [hget, attrgetter_single n x hn]; exact getattrV_obj_none hmiss)
    show serializeFields x [] [_compile_read_field_to_tuple f n attrgetter] = _
    simp only [serializeFields, hrun]
  · have hrun := runReadField_optional_marker xp []
      (_compile_read_field_to_tuple f n attrgetter)
      hpass hreq (by rw [hget]; exact default_getter_eval hn hmark)
    show serializeFields xp [] [_compile_read_field_to_tuple f n attrgetter] = _
    simp only [serializeFields, hrun]
    rfl

/-- C8 witness: field `a`, one source with no attribute at all and one whose
attribute holds the marker. -/
theorem claim8_getter_before_required_check_witness :
    _serialize (_compile_meta
        { direct_fields := [("a", ({ required := false } : Field))] }) []
      = Except.error (PyError.attributeError "a") ∧
    _serialize (_compile_meta
        { direct_fields := [("a", ({ required := false } : Field))] })
      [("a", Value.pyNone)]
      = Except.ok [("a", Value.pyNone)] :=
  claim8_getter_before_required_check "a" { required := false } [] [("a", Value.pyNone)]
    rfl rfl rfl rfl rfl rfl rfl

/-! ### Claim C9: an absent optional key still invokes the setter -/

/-- C9: in the write pipeline, a non-owner-bound non-required entry whose key
is absent from the source mapping skips conversion but still invokes the
setter with the marker — in general for any such compiled entry, and
end-to-end for a one-field schema, whose reconstructed target ends with the
attribute explicitly bound to the marker. -/
theorem claim9_absent_optional_sets_marker (n : String) (f : Field) (dt : Dict)
    (v0 : Obj)
    (hreq : f.required = false) (hro : f.read_only = false)
    (hset : f.as_setter = Option.none) (hpass : f.setter_takes_serializer = false)
    (habs : dictGet dt n = Option.none) :
    (∀ (wf : WriteField) (v : Obj) (t : String), wf.pass_self = false →
      wf.required = false → wf.setter = attrsetter t →
      dictGet dt wf.name = Option.none →
      runWriteField dt v wf = Except.ok (dictInsert v t Value.pyNone)) ∧
    _deserialize (_compile_meta
        { direct_fields := [(n, f)], meta_cls := some (some v0) }) dt
      = Except.ok (dictInsert v0 (attr_or_name f n) Value.pyNone) ∧
    dictGet (dictInsert v0 (attr_or_name f n) Value.pyNone) (attr_or_name f n)
      = some Value.pyNone := by
  refine ⟨?_, ?_, dictGet_dictInsert_self v0 (attr_or_name f n) Value.pyNone⟩
  · intro wf v t h1 h2 h3 h4
    have hrun := runWriteField_absent_optional dt v wf h1 h2 h4
    rw [h3] at hrun
    exact hrun
  · have hfil : (_compile_meta
        { direct_fields := [(n, f)], meta_cls := some (some v0) }).compiled_write_fields
        = [_compile_write_field_to_tuple f n attrsetter] := by
      show (List.filter _ [(n, f)]).map _ = _
      simp [List.filter_cons, hro]
    rw [show _deserialize (_compile_meta
        { direct_fields := [(n, f)], meta_cls := some (some v0) }) dt
      = deserializeFields dt v0 (_compile_meta
        { direct_fields := [(n, f)], meta_cls := some (some v0) }).compiled_write_fields
      from rfl, hfil]
    have hrun := runWriteField_absent_optional dt v0
      (_compile_write_field_to_tuple f n attrsetter) hpass hreq habs
    simp only [deserializeFields, hrun]
    show Except.ok ((match f.as_setter with
      | some s => s
      | Option.none => attrsetter (attr_or_name f n)) v0 Value.pyNone) = _
    rw [hset]
    rfl

/-- C9 witness: one optional field `a` over an empty source mapping. -/
theorem claim9_absent_optional_sets_marker_witness :
    _deserialize (_compile_meta
        { direct_fields := [("a", ({ required := false } : Field))]
          meta_cls := some (some []) }) []
      = Except.ok (dictInsert [] (attr_or_name { required := false } "a") Value.pyNone) :=
  (claim9_absent_optional_sets_marker "a" { required := false } [] []
    rfl rfl rfl rfl rfl).2.1

/-! ### Claim C2: identity round trip (corrected) -/

/-- A field with the identity conversion in both directions, no alias, not
read-only, not invocable, and not owner-bound. -/
def identityField (f : Field) : Prop :=
  f.to_representation = Option.none ∧ f.to_internal_value = Option.none ∧
  f.attr = Option.none ∧ f.read_only = false ∧ f.call = false ∧
  f.as_getter = Option.none ∧ f.as_setter = Option.none ∧
  f.getter_takes_serializer = false ∧ f.setter_takes_serializer = false

/-- An invocable but otherwise identity field for the C2 counterexample. -/
def fieldCallC2 : Field := { call := true }

/-- One-field schema over the invocable field, with a target constructor. -/
def metaCallC2 : Meta :=
  _compile_meta { direct_fields := [("a", fieldCallC2)], meta_cls := some (some []) }

/-- An owner-bound field (method-field pattern) whose getter returns a
constant and whose setter ignores the value, for the C2 counterexample. -/
def fieldMethC2 : Field :=
  { as_getter := some (fun _ => Except.ok (Value.int 99))
    getter_takes_serializer := true
    as_setter := some (fun v _ => v)
    setter_takes_serializer := true }

/-- One-field schema over the owner-bound field. -/
def metaMethC2 : Meta :=
  _compile_meta { direct_fields := [("a", fieldMethC2)], meta_cls := some (some []) }

/-- C2 counterexample: the claim fails as stated. (a) A schema whose only
field has identity converters, no alias and is not read-only, but is
optional: a source with every required field present (there are none) and
the optional attribute entirely absent makes the read pipeline raise, so no
object is reconstructed. (b) The same descriptor conditions with the
invocable flag set: the round trip stores the called value and the
reconstructed attribute differs from the thunk on the source. (c) With
owner-bound accessors: the reconstructed object does not even bind the
attribute the source carries. -/
theorem claim2_roundtrip_counterexample :
    _serialize (_compile_meta
        { direct_fields := [("a", ({ required := false } : Field))] }) []
      = Except.error (PyError.attributeError "a") ∧
    (_serialize metaCallC2 [("a", Value.thunk (Value.int 5))]
        = Except.ok [("a", Value.int 5)] ∧
     _deserialize metaCallC2 [("a", Value.int 5)]
        = Except.ok [("a", Value.int 5)] ∧
     dictGet ([("a", Value.thunk (Value.int 5))] : Obj) "a"
        = some (Value.thunk (Value.int 5)) ∧
     Value.int 5 ≠ Value.thunk (Value.int 5)) ∧
    (_serialize metaMethC2 [("a", Value.int 1)] = Except.ok [("a", Value.int 99)] ∧
     _deserialize metaMethC2 [("a", Value.int 99)] = Except.ok [] ∧
     dictGet ([] : Obj) "a" = Option.none ∧
     dictGet ([("a", Value.int 1)] : Obj) "a" = some (Value.int 1)) :=
  ⟨rfl, ⟨rfl, rfl, rfl, fun h => by cases h⟩, ⟨rfl, rfl, rfl, rfl⟩⟩

/-- C2 (amended): for a schema of identity-converter fields (no custom
hooks, no aliases, no read-only fields, and additionally: not invocable, not
owner-bound, plain single-segment field names) with a target constructor,
and a source object on which the attribute of every field is present (an
optional attribute may hold the marker but must exist), deserializing the
serialized representation reconstructs an object that agrees with the
source on every tracked field attribute. -/
theorem claim2_roundtrip (d : SerializerClassDef) (x v0 : Obj)
    (hg : d.default_getter = attrgetter) (hs : d.default_setter = attrsetter)
    (hcls : resolveCls d = some v0)
    (hfields : ∀ p ∈ (_compile_meta d).field_map,
      identityField p.2 ∧ splitDots p.1 = [p.1])
    (hpresent : ∀ p ∈ (_compile_meta d).field_map,
      (dictGet x p.1).isSome = true) :
    ∃ dct v2, _serialize (_compile_meta d) x = Except.ok dct ∧
      _deserialize (_compile_meta d) dct = Except.ok v2 ∧
      ∀ p ∈ (_compile_meta d).field_map, dictGet v2 p.1 = dictGet x p.1 := by
  have hread : ∀ rf ∈ (_compile_meta d).compiled_read_fields,
      rf.pass_self = false ∧ rf.call = false ∧ rf.to_repr = Option.none ∧
      rf.getter x = Except.ok ((dictGet x rf.name).getD Value.pyNone) := by
    intro rf hrf
    obtain ⟨p, hp, hpe⟩ := List.mem_map.mp hrf
    obtain ⟨hid, hsplit⟩ := hfields p hp
    obtain ⟨hto, hti, hattr, hro, hcall, hag, has, hgts, hsts⟩ := hid
    subst hpe
    refine ⟨hgts, hcall, hto, ?_⟩
    obtain ⟨w, hw⟩ := Option.isSome_iff_exists.mp (hpresent p hp)
    have hget : (_compile_read_field_to_tuple p.2 p.1 d.default_getter).getter
        = attrgetter p.1 := by
      show (match p.2.as_getter with
        | some g => g
        | Option.none => d.default_getter (attr_or_name p.2 p.1)) = _
      rw [hag, hg]
      simp [attr_or_name, hattr]
    rw [hget]
    show attrgetter p.1 x = Except.ok ((dictGet x p.1).getD Value.pyNone)
    rw [default_getter_eval hsplit hw, hw]
    rfl
  have hndr : ((_compile_meta d).compiled_read_fields.map ReadField.name).Nodup := by
    rw [compiled_read_names d]
    exact field_map_nodup d
  obtain ⟨dct, hser, hpt⟩ := serializeFields_pointwise x
    (fun k => (dictGet x k).getD Value.pyNone)
    (_compile_meta d).compiled_read_fields [] hndr hread
  have hfilter : (_compile_meta d).field_map.filter (fun p => !p.2.read_only)
      = (_compile_meta d).field_map := by
    apply List.filter_eq_self.mpr
    intro p hp
    obtain ⟨hid, _⟩ := hfields p hp
    simp [hid.2.2.2.1]
  have hwf : (_compile_meta d).compiled_write_fields
      = (_compile_meta d).field_map.map
        (fun p => _compile_write_field_to_tuple p.2 p.1 d.default_setter) := by
    show ((_compile_meta d).field_map.filter _).map _ = _
    rw [hfilter]
  have hwrite : ∀ wf ∈ (_compile_meta d).compiled_write_fields,
      wf.pass_self = false ∧ wf.to_internal = Option.none ∧
      wf.setter = attrsetter wf.name ∧
      dictGet dct wf.name = some ((dictGet x wf.name).getD Value.pyNone) := by
    intro wf hwf2
    rw [hwf] at hwf2
    obtain ⟨p, hp, hpe⟩ := List.mem_map.mp hwf2
    obtain ⟨hid, hsplit⟩ := hfields p hp
    obtain ⟨hto, hti, hattr, hro, hcall, hag, has, hgts, hsts⟩ := hid
    subst hpe
    refine ⟨hsts, hti, ?_, ?_⟩
    · show (match p.2.as_setter with
        | some s => s
        | Option.none => d.default_setter (attr_or_name p.2 p.1)) = _
      rw [has, hs]
      show attrsetter (attr_or_name p.2 p.1) = attrsetter p.1
      simp [attr_or_name, hattr]
    · have hmemr : p.1 ∈ (_compile_meta d).compiled_read_fields.map ReadField.name := by
        rw [compiled_read_names d]
        exact List.mem_map_of_mem Prod.fst hp
      show dictGet dct p.1 = some ((dictGet x p.1).getD Value.pyNone)
      rw [hpt p.1, if_pos hmemr]
  have hndw : ((_compile_meta d).compiled_write_fields.map WriteField.name).Nodup := by
    rw [compiled_write_names d, hfilter]
    exact field_map_nodup d
  obtain ⟨v2, hdes, hpt2⟩ := deserializeFields_pointwise dct
    (fun k => (dictGet x k).getD Value.pyNone)
    (_compile_meta d).compiled_write_fields v0 hndw hwrite
  refine ⟨dct, v2, hser, ?_, ?_⟩
  · show (match (_compile_meta d).cls with
      | Option.none => Except.error
          (PyError.typeError "NoneType object is not callable")
      | some w0 => deserializeFields dct w0 (_compile_meta d).compiled_write_fields)
      = Except.ok v2
    have hc : (_compile_meta d).cls = some v0 := hcls
    rw [hc]
    exact hdes
  · intro p hp
    have hmemw : p.1 ∈ (_compile_meta d).compiled_write_fields.map WriteField.name := by
      rw [compiled_write_names d, hfilter]
      exact List.mem_map_of_mem Prod.fst hp
    rw [hpt2 p.1, if_pos hmemw]
    obtain ⟨w, hw⟩ := Option.isSome_iff_exists.mp (hpresent p hp)
    rw [hw]
    rfl

/-- C2 witness: a two-field identity schema with a constructor, round
tripped over a concrete source. -/
theorem claim2_roundtrip_witness :
    ∃ dct v2,
      _serialize (_compile_meta
        { direct_fields := [("a", ({} : Field)), ("b", ({ required := false } : Field))]
          meta_cls := some (some []) })
        [("a", Value.int 7), ("b", Value.str "hi")] = Except.ok dct ∧
      _deserialize (_compile_meta
        { direct_fields := [("a", ({} : Field)), ("b", ({ required := false } : Field))]
          meta_cls := some (some []) }) dct = Except.ok v2 ∧
      ∀ p ∈ (_compile_meta
        { direct_fields := [("a", ({} : Field)), ("b", ({ required := false } : Field))]
          meta_cls := some (some []) }).field_map,
        dictGet v2 p.1 = dictGet [("a", Value.int 7), ("b", Value.str "hi")] p.1 :=
  claim2_roundtrip
    { direct_fields := [("a", ({} : Field)), ("b", ({ required := false } : Field))]
      meta_cls := some (some []) }
    [("a", Value.int 7), ("b", Value.str "hi")] [] rfl rfl rfl
    (by
      intro p hp
      have hp2 : p ∈ [("a", ({} : Field)), ("b", ({ required := false } : Field))] := hp
      rcases List.mem_cons.mp hp2 with h | h2
      · subst h
        exact ⟨⟨rfl, rfl, rfl, rfl, rfl, rfl, rfl, rfl, rfl⟩, rfl⟩
      · rcases List.mem_cons.mp h2 with h | h3
        · subst h
          exact ⟨⟨rfl, rfl, rfl, rfl, rfl, rfl, rfl, rfl, rfl⟩, rfl⟩
        · cases h3)
    (by
      intro p hp
      have hp2 : p ∈ [("a", ({} : Field)), ("b", ({ required := false } : Field))] := hp
      rcases List.mem_cons.mp hp2 with h | h2
      · subst h
        rfl
      · rcases List.mem_cons.mp h2 with h | h3
        · subst h
          rfl
        · cases h3)

/-! ### Claim C7: read-only exclusion from the write pipeline -/

/-- C7: a read-only field stays in the read pipeline — every successful
serialization binds its key — but is excluded from the compiled write
pipeline (no write entry carries its name), and reconstruction leaves its
corresponding target attribute exactly as the constructor produced it (in
particular unset for a fresh empty target), provided no other writable
field aliases onto that same attribute. -/
theorem claim7_read_only_excluded (d : SerializerClassDef) (n : String) (f : Field)
    (hs : d.default_setter = attrsetter)
    (hmem : dictGet (_compile_meta d).field_map n = some f)
    (hro : f.read_only = true)
    (hothers : ∀ p ∈ (_compile_meta d).field_map, p.2.read_only = false →
      p.2.as_setter = Option.none ∧ attr_or_name p.2 p.1 ≠ attr_or_name f n) :
    (∀ wf ∈ (_compile_meta d).compiled_write_fields, wf.name ≠ n) ∧
    (∀ (x : Obj) (dct : Dict), _serialize (_compile_meta d) x = Except.ok dct →
      (dictGet dct n).isSome = true) ∧
    (∀ (data : Dict) (v0 v2 : Obj), (_compile_meta d).cls = some v0 →
      _deserialize (_compile_meta d) data = Except.ok v2 →
      dictGet v2 (attr_or_name f n) = dictGet v0 (attr_or_name f n)) := by
  refine ⟨?_, ?_, ?_⟩
  · intro wf hwf heq
    obtain ⟨p, hp, hpe⟩ := List.mem_map.mp hwf
    obtain ⟨hpm, hpro⟩ := List.mem_filter.mp hp
    have hro2 : p.2.read_only = false := by simpa using hpro
    have hname : p.1 = n := by
      rw [← heq, ← hpe]
      rfl
    have hpmem : (n, p.2) ∈ (_compile_meta d).field_map := by
      rw [← hname, Prod.mk.eta]
      exact hpm
    have hget := dictGet_of_mem_nodup (field_map_nodup d) hpmem
    rw [hmem] at hget
    injection hget with hget
    rw [← hget] at hro2
    rw [hro] at hro2
    cases hro2
  · intro x dct hser
    have hnmem : n ∈ keys (_compile_meta d).field_map := mem_keys_of_dictGet hmem
    rw [← compiled_read_names d] at hnmem
    obtain ⟨rf, hrf, hrfname⟩ := List.mem_map.mp hnmem
    have hser2 : serializeFields x [] (_compile_meta d).compiled_read_fields
        = Except.ok dct := hser
    have := serializeFields_names_isSome hser2 rf hrf
    rw [hrfname] at this
    exact this
  · intro data v0 v2 hcls hdes
    have hset : ∀ wf ∈ (_compile_meta d).compiled_write_fields,
        ∃ s, s ≠ attr_or_name f n ∧ wf.setter = attrsetter s := by
      intro wf hwf
      obtain ⟨p, hp, hpe⟩ := List.mem_map.mp hwf
      obtain ⟨hpm, hpro⟩ := List.mem_filter.mp hp
      have hro2 : p.2.read_only = false := by simpa using hpro
      obtain ⟨hsetnone, hne⟩ := hothers p hpm hro2
      refine ⟨attr_or_name p.2 p.1, hne, ?_⟩
      rw [← hpe]
      show (match p.2.as_setter with
        | some s => s
        | Option.none => d.default_setter (attr_or_name p.2 p.1)) = _
      rw [hsetnone, hs]
    have hdes2 : deserializeFields data v0 (_compile_meta d).compiled_write_fields
        = Except.ok v2 := by
      have hd : _deserialize (_compile_meta d) data
          = (match (_compile_meta d).cls with
            | Option.none => Except.error
                (PyError.typeError "NoneType object is not callable")
            | some w0 =>
                deserializeFields data w0 (_compile_meta d).compiled_write_fields)
          := rfl
      rw [hd, hcls] at hdes
      exact hdes
    exact deserializeFields_preserve data (attr_or_name f n) _ v0 v2 hset hdes2

/-- The read-only field of the C7 witness schema. -/
def fieldROC7 : Field := { read_only := true }

/-- The C7 witness schema: a read-only field `a` next to a writable `b`. -/
def defC7 : SerializerClassDef :=
  { direct_fields := [("a", fieldROC7), ("b", ({} : Field))]
    meta_cls := some (some []) }

/-- C7 witness: the theorem applied to the concrete two-field schema. -/
theorem claim7_read_only_excluded_witness :
    (∀ wf ∈ (_compile_meta defC7).compiled_write_fields, wf.name ≠ "a") ∧
    (∀ (x : Obj) (dct : Dict), _serialize (_compile_meta defC7) x = Except.ok dct →
      (dictGet dct "a").isSome = true) ∧
    (∀ (data : Dict) (v0 v2 : Obj), (_compile_meta defC7).cls = some v0 →
      _deserialize (_compile_meta defC7) data = Except.ok v2 →
      dictGet v2 (attr_or_name fieldROC7 "a")
        = dictGet v0 (attr_or_name fieldROC7 "a")) :=
  claim7_read_only_excluded defC7 "a" fieldROC7 rfl rfl rfl
    (by
      intro p hp hro2
      have hp2 : p ∈ [("a", fieldROC7), ("b", ({} : Field))] := hp
      rcases List.mem_cons.mp hp2 with h | h2
      · subst h
        cases hro2
      · rcases List.mem_cons.mp h2 with h | h3
        · subst h
          exact ⟨rfl, by decide⟩
        · cases h3)

end Serpy
